import Mathlib

/-!
# Knowledge-base retrieval engine of the MetaTherapy bot: a shallow embedding

This file embeds the script-storage / search module of the repository
(`getAllScripts`, `addScript`, `deleteScript`, `searchScripts`,
`findRelevantScriptsForChat`) and the older inline scorer
(`findRelevantScripts` in the routes file), and proves the spec's claims
about them.

JavaScript string operations are modelled over `List Char`:
`toLowerCase` as a character map (ASCII and Cyrillic ranges, which cover
the corpus language), `includes` as a contiguous-run search, `split` as
per-character splitting, `trim` as dropping whitespace at both ends.
-/

/-- `String.prototype.toLowerCase` on one character: ASCII `A`-`Z` and
Cyrillic `А`-`Я`, `Ё` map to their lowercase forms; everything else is
fixed. -/
def jsLowerChar (c : Char) : Char :=
  if 'A' ≤ c ∧ c ≤ 'Z' then Char.ofNat (c.toNat + 32)
  else if 'А' ≤ c ∧ c ≤ 'Я' then Char.ofNat (c.toNat + 32)
  else if c = 'Ё' then 'ё'
  else c

/-- `s.toLowerCase()` as a character list. -/
def lowerStr (s : String) : List Char :=
  s.toList.map jsLowerChar

/-- Does the pattern start the list? (helper for `includes`). -/
def startsWithL : List Char → List Char → Bool
  | [], _ => true
  | _ :: _, [] => false
  | a :: t, b :: s => a == b && startsWithL t s

/-- `s.includes(t)`: the pattern `t` occurs contiguously in `s`. -/
def includesL (t : List Char) : List Char → Bool
  | [] => t.isEmpty
  | c :: s => startsWithL t (c :: s) || includesL t s

/-- `id.startsWith(pfx)` on strings. -/
def strStartsWith (s pfx : String) : Bool :=
  startsWithL pfx.toList s.toList

/-- Cons a character onto the first fragment (helper for splitting). -/
def consHead (c : Char) : List (List Char) → List (List Char)
  | [] => [[c]]
  | w :: ws => (c :: w) :: ws

/-- Split a character list at every character satisfying `p`.
`String.prototype.split(",")` splits at every separator character, which
is exactly this; `split(/\s+/)` collapses whitespace runs, producing the
same list except for extra empty fragments, which every caller removes
with a minimum-length filter, so the filtered token lists agree. -/
def splitOnP (p : Char → Bool) : List Char → List (List Char)
  | [] => [[]]
  | c :: s => if p c then [] :: splitOnP p s else consHead c (splitOnP p s)

/-- `s.trim()`: strip whitespace from both ends. -/
def jsTrim (s : String) : String :=
  String.mk (((s.toList.dropWhile Char.isWhitespace).reverse.dropWhile
    Char.isWhitespace).reverse)

/-- `input.toLowerCase().split(/\s+/).filter(t => t.length > minLen)`:
the token list of a query or message under a given minimum length. -/
def tokensOf (minLen : Nat) (input : String) : List (List Char) :=
  (splitOnP Char.isWhitespace (lowerStr input)).filter
    (fun t => decide (minLen < t.length))

/-- An entry of the merged view (`MPTScript` with its provenance flag). -/
structure MPTScript where
  id : String
  title : String
  category : String
  content : String
  tags : List String
  isCustom : Bool
deriving DecidableEq

/-- A built-in entry of `mptKnowledgeBase` (no provenance flag). -/
structure BaseScript where
  id : String
  title : String
  category : String
  content : String
  tags : List String
deriving DecidableEq

/-- A persisted row of the `custom_scripts` table (`tags` comma-joined). -/
structure CustomScriptRow where
  id : String
  title : String
  category : String
  content : String
  tags : String
deriving DecidableEq

/-- `tags.split(",").map(t => t.trim()).filter(Boolean)`: rebuild the tag
list of a stored row. -/
def parseTags (s : String) : List String :=
  (((splitOnP (fun c => c == ',') s.toList).map
    (fun l => jsTrim (String.mk l))).filter (fun t => decide (t ≠ "")))

/-- Tag a built-in entry with `isCustom: false` (the `{...s, isCustom}`
spread in `getAllScripts`). -/
def withFlag (s : BaseScript) : MPTScript :=
  ⟨s.id, s.title, s.category, s.content, s.tags, false⟩

/-- Map a stored row back to an entry (`customMapped` in
`getAllScripts`). -/
def rowToScript (r : CustomScriptRow) : MPTScript :=
  ⟨r.id, r.title, r.category, r.content, parseTags r.tags, true⟩

/-- `getAllScripts`: built-in entries first, then the custom rows in
storage order. -/
def getAllScripts (kb : List BaseScript) (db : List CustomScriptRow) :
    List MPTScript :=
  kb.map withFlag ++ db.map rowToScript

/-- The input of `addScript`. -/
structure AddInput where
  title : String
  category : String
  content : String
  tags : List String
deriving DecidableEq

/-- The object literal `addScript` returns (it carries no provenance
flag). -/
structure AddResult where
  id : String
  title : String
  category : String
  content : String
  tags : List String
deriving DecidableEq

/-- `tags.join(",")` on character lists. -/
def joinCommaL : List (List Char) → List Char
  | [] => []
  | [t] => t
  | t :: ts => t ++ ',' :: joinCommaL ts

/-- `addScript`: build the id from the provenance marker and the fresh
uuid, persist the row with comma-joined tags, return the input data with
the new id. -/
def addScript (db : List CustomScriptRow) (uuid : String) (d : AddInput) :
    List CustomScriptRow × AddResult :=
  let id := "custom-" ++ uuid
  let tagsStr := String.mk (joinCommaL (d.tags.map String.toList))
  (db ++ [⟨id, d.title, d.category, d.content, tagsStr⟩],
   ⟨id, d.title, d.category, d.content, d.tags⟩)

/-- `deleteScript`: reject ids without the provenance marker before any
store access; otherwise delete the matching rows and report whether any
row was removed (`returning().length > 0`). -/
def deleteScript (db : List CustomScriptRow) (id : String) :
    List CustomScriptRow × Bool :=
  if strStartsWith id "custom-" then
    (db.filter (fun r => decide (r.id ≠ id)),
     decide (0 < (db.filter (fun r => decide (r.id = id))).length))
  else (db, false)

/-- The score one surviving token adds to an entry: `+10` title, `+5`
category, `+7` some tag, `+2` content (each by substring presence). -/
def termScore (script : MPTScript) (term : List Char) : Nat :=
  (if includesL term (lowerStr script.title) then 10 else 0) +
  (if includesL term (lowerStr script.category) then 5 else 0) +
  (if script.tags.any (fun tag => includesL term (lowerStr tag)) then 7
    else 0) +
  (if includesL term (lowerStr script.content) then 2 else 0)

/-- The `for (const term of searchTerms)` accumulation loop. -/
def scoreTerms (terms : List (List Char)) (script : MPTScript) : Nat :=
  terms.foldl (fun acc t => acc + termScore script t) 0

/-- The fixed domain key-term list of the chat-context profile. -/
def keyTerms : List String :=
  ["стратегия", "потребност", "идентичност", "запрос", "эмоци",
   "тело", "интеграц", "метапозиц", "сессия", "принцип"]

/-- Does the key-term occur in the entry's title, content, or a tag? -/
def keyFieldMatch (script : MPTScript) (key : String) : Bool :=
  includesL key.toList (lowerStr script.title) ||
  includesL key.toList (lowerStr script.content) ||
  script.tags.any (fun t => includesL key.toList (lowerStr t))

/-- The chat-profile score: the token loop with minimum length 4, then
the key-term bonus loop adding `+5` per key-term found in both the raw
lower-cased message and the entry. -/
def chatScore (message : String) (script : MPTScript) : Nat :=
  keyTerms.foldl
    (fun acc key =>
      if includesL key.toList (lowerStr message) && keyFieldMatch script key
      then acc + 5 else acc)
    (scoreTerms (tokensOf 3 message) script)

/-- Insert an element into a list sorted by score descending, after every
element of greater-or-equal score. -/
def insertDesc {α : Type} (x : α × Nat) : List (α × Nat) → List (α × Nat)
  | [] => [x]
  | y :: ys => if y.2 ≤ x.2 then x :: y :: ys else y :: insertDesc x ys

/-- `Array.prototype.sort((a, b) => b.score - a.score)`, which ECMAScript
specifies as a stable descending sort; insertion from the left keeps
earlier elements before later elements of equal score. -/
def sortByScoreDesc {α : Type} : List (α × Nat) → List (α × Nat)
  | [] => []
  | x :: xs => insertDesc x (sortByScoreDesc xs)

/-- `searchScripts`: blank queries return the whole merged view; other
queries are tokenised at minimum length 3, every entry is scored, zero
scores are dropped, survivors are stably sorted by score descending and
truncated to `limit` (default 10). -/
def searchScripts (kb : List BaseScript) (db : List CustomScriptRow)
    (query : String) (limit : Nat := 10) : List MPTScript :=
  let allScripts := getAllScripts kb db
  if jsTrim query = "" then allScripts
  else
    let searchTerms := tokensOf 2 query
    let scored := allScripts.map (fun s => (s, scoreTerms searchTerms s))
    (((sortByScoreDesc (scored.filter (fun p => decide (0 < p.2)))).take
      limit).map Prod.fst)

/-- `findRelevantScriptsForChat`: chat-profile scores over the merged
view, zero scores dropped, stable descending sort, truncation to `limit`
(default 3); no blank-input special case. -/
def findRelevantScriptsForChat (kb : List BaseScript)
    (db : List CustomScriptRow) (message : String) (limit : Nat := 3) :
    List MPTScript :=
  let allScripts := getAllScripts kb db
  let scored := allScripts.map (fun s => (s, chatScore message s))
  (((sortByScoreDesc (scored.filter (fun p => decide (0 < p.2)))).take
    limit).map Prod.fst)

/-- Per-token score of the older inline scorer (same weights, over a
built-in entry). -/
def termScoreBase (script : BaseScript) (term : List Char) : Nat :=
  (if includesL term (lowerStr script.title) then 10 else 0) +
  (if includesL term (lowerStr script.category) then 5 else 0) +
  (if script.tags.any (fun tag => includesL term (lowerStr tag)) then 7
    else 0) +
  (if includesL term (lowerStr script.content) then 2 else 0)

/-- Token loop of the inline scorer. -/
def scoreTermsBase (terms : List (List Char)) (script : BaseScript) : Nat :=
  terms.foldl (fun acc t => acc + termScoreBase script t) 0

/-- Key-term field test of the inline scorer. -/
def keyFieldMatchBase (script : BaseScript) (key : String) : Bool :=
  includesL key.toList (lowerStr script.title) ||
  includesL key.toList (lowerStr script.content) ||
  script.tags.any (fun t => includesL key.toList (lowerStr t))

/-- Chat-profile score of the inline scorer. -/
def chatScoreBase (message : String) (script : BaseScript) : Nat :=
  keyTerms.foldl
    (fun acc key =>
      if includesL key.toList (lowerStr message) &&
        keyFieldMatchBase script key
      then acc + 5 else acc)
    (scoreTermsBase (tokensOf 3 message) script)

/-- The older inline `findRelevantScripts` of the routes file: the same
pipeline, but scanning only the built-in corpus. -/
def findRelevantScripts (kb : List BaseScript) (message : String)
    (limit : Nat := 3) : List BaseScript :=
  let scored := kb.map (fun s => (s, chatScoreBase message s))
  (((sortByScoreDesc (scored.filter (fun p => decide (0 < p.2)))).take
    limit).map Prod.fst)

example : jsTrim "  ab c " = "ab c" := by decide
example : tokensOf 2 " Foo ab барс" = [['f','o','o'], ['б','а','р','с']] := by
  decide
example : parseTags "a, b ,,c" = ["a", "b", "c"] := by decide
example : includesL ['б','а'] ['а','б','а','р'] = true := by decide
example : sortByScoreDesc [(1, 3), (2, 5), (3, 3)] =
    [(2, 5), (1, 3), (3, 3)] := by decide

theorem foldl_add_eq {α : Type} (f : α → Nat) :
    ∀ (l : List α) (a : Nat),
      l.foldl (fun acc t => acc + f t) a = a + (l.map f).sum
  | [], a => by simp
  | t :: ts, a => by
    simp only [List.foldl_cons, List.map_cons, List.sum_cons]
    rw [foldl_add_eq f ts (a + f t)]
    omega

theorem scoreTerms_eq_sum (terms : List (List Char)) (e : MPTScript) :
    scoreTerms terms e = (terms.map (termScore e)).sum := by
  simpa [scoreTerms] using foldl_add_eq (termScore e) terms 0

theorem scoreTerms_append (t1 t2 : List (List Char)) (e : MPTScript) :
    scoreTerms (t1 ++ t2) e = scoreTerms t1 e + scoreTerms t2 e := by
  simp [scoreTerms_eq_sum]

theorem foldl_bonus_eq {α : Type} (p : α → Bool) :
    ∀ (l : List α) (a : Nat),
      l.foldl (fun acc k => if p k then acc + 5 else acc) a =
        a + 5 * l.countP p
  | [], a => by simp
  | k :: ks, a => by
    simp only [List.foldl_cons, List.countP_cons]
    rw [foldl_bonus_eq p ks]
    by_cases h : p k
    · simp [h]
      omega
    · simp [h]

/-- C1: the general-search score of an entry is the sum, over the
query's lower-cased whitespace tokens of length greater than 2 (in
order, with repetitions), of +10 for a title substring hit, +5 for a
category hit, +7 (at most once per token) if some tag hits, and +2 for a
content hit — each by presence only. -/
theorem general_search_score_spec (q : String) (e : MPTScript) :
    scoreTerms (tokensOf 2 q) e =
      ((tokensOf 2 q).map (fun tok =>
        (if includesL tok (lowerStr e.title) then 10 else 0) +
        (if includesL tok (lowerStr e.category) then 5 else 0) +
        (if e.tags.any (fun tg => includesL tok (lowerStr tg)) then 7
          else 0) +
        (if includesL tok (lowerStr e.content) then 2 else 0))).sum := by
  rw [scoreTerms_eq_sum]
  rfl

/-- C2: the chat-context score is the field-weighted token sum with
minimum token length 4, plus a flat +5 once per fixed key-term exactly
when the key-term occurs in the lower-cased raw message and also in the
entry's lower-cased title, content or some tag; the key-term list has
ten entries. -/
theorem chat_score_spec (m : String) (e : MPTScript) :
    keyTerms.length = 10 ∧
    chatScore m e =
      scoreTerms (tokensOf 3 m) e +
        5 * keyTerms.countP (fun k =>
          includesL k.toList (lowerStr m) &&
            (includesL k.toList (lowerStr e.title) ||
             includesL k.toList (lowerStr e.content) ||
             e.tags.any (fun t => includesL k.toList (lowerStr t)))) := by
  refine ⟨by decide, ?_⟩
  rw [chatScore, foldl_bonus_eq]
  rfl

/-- C4: deleting an id without the `custom-` marker returns false and
leaves the store untouched; deleting a marked id succeeds exactly when a
row with that id was present, removes exactly the rows with that id, and
returns false with the store unchanged when no such row exists. -/
theorem delete_gating (db : List CustomScriptRow) (id : String) :
    (strStartsWith id "custom-" = false →
      deleteScript db id = (db, false)) ∧
    (strStartsWith id "custom-" = true →
      ((deleteScript db id).2 = true ↔ ∃ r ∈ db, r.id = id) ∧
      (deleteScript db id).1 = db.filter (fun r => decide (r.id ≠ id)) ∧
      ((∀ r ∈ db, r.id ≠ id) → deleteScript db id = (db, false))) := by
  constructor
  · intro h
    simp [deleteScript, h]
  · intro h
    refine ⟨?_, ?_, ?_⟩
    · simp only [deleteScript, h, if_true]
      simp [List.length_pos, List.filter_eq_nil_iff]
    · simp [deleteScript, h]
    · intro hn
      have h1 : db.filter (fun r => decide (r.id ≠ id)) = db := by
        rw [List.filter_eq_self]
        intro r hr
        simp [hn r hr]
      have h2 : db.filter (fun r => decide (r.id = id)) = [] := by
        rw [List.filter_eq_nil_iff]
        intro r hr
        simp [hn r hr]
      simp [deleteScript, h, h1, h2]
      exact hn

/-- Sample built-in entry used by concrete witnesses. -/
def sampleBase : BaseScript :=
  ⟨"mpt-1", "Работа с эмоциями", "Базовые", "Текст про тело и эмоции",
   ["эмоции", "тело"]⟩

/-- Second sample built-in entry used by concrete witnesses. -/
def sampleBase2 : BaseScript :=
  ⟨"mpt-2", "Исследование страха", "Страхи", "Текст про страх", ["страх"]⟩

/-- Sample stored custom row used by concrete witnesses. -/
def sampleRow : CustomScriptRow :=
  ⟨"custom-1", "Мой скрипт", "Разное", "текст", "a,b"⟩

/-- Witness for C4: a non-marked id is rejected with the store unchanged,
and deleting a present marked id reports success. -/
theorem delete_gating_witness :
    deleteScript [sampleRow] "mpt-1" = ([sampleRow], false) ∧
    ((deleteScript [sampleRow] "custom-1").2 = true ↔
      ∃ r ∈ [sampleRow], r.id = "custom-1") :=
  ⟨(delete_gating [sampleRow] "mpt-1").1 (by decide),
   ((delete_gating [sampleRow] "custom-1").2 (by decide)).1⟩

/-- C5: a blank (empty or all-whitespace) query returns the whole merged
view — built-in entries then custom rows in source order — unscored,
unfiltered and not truncated to the limit. -/
theorem blank_query_returns_all (kb : List BaseScript)
    (db : List CustomScriptRow) (q : String) (limit : Nat)
    (h : jsTrim q = "") :
    searchScripts kb db q limit = getAllScripts kb db ∧
    getAllScripts kb db = kb.map withFlag ++ db.map rowToScript := by
  refine ⟨?_, rfl⟩
  simp [searchScripts, h]

/-- Witness for C5: query `" "` with limit 0 returns all three entries,
exceeding the limit. -/
theorem blank_query_witness :
    jsTrim " " = "" ∧
    (searchScripts [sampleBase, sampleBase2] [sampleRow] " " 0 =
      getAllScripts [sampleBase, sampleBase2] [sampleRow] ∧
     getAllScripts [sampleBase, sampleBase2] [sampleRow] =
      [sampleBase, sampleBase2].map withFlag ++
        [sampleRow].map rowToScript) :=
  ⟨by decide, blank_query_returns_all _ _ " " 0 (by decide)⟩

theorem consHead_ne_nil (c : Char) : ∀ l, consHead c l ≠ []
  | [] => by simp [consHead]
  | w :: ws => by simp [consHead]

theorem splitOnP_ne_nil (p : Char → Bool) (s : List Char) :
    splitOnP p s ≠ [] := by
  cases s with
  | nil => simp [splitOnP]
  | cons c s => cases h : p c <;> simp [splitOnP, h, consHead_ne_nil]

theorem consHead_append (c : Char) (u v : List (List Char)) (hu : u ≠ []) :
    consHead c (u ++ v) = consHead c u ++ v := by
  cases u with
  | nil => exact absurd rfl hu
  | cons w ws => simp [consHead]

theorem splitOnP_append_sep (p : Char → Bool) (c : Char) (hc : p c = true) :
    ∀ (a b : List Char),
      splitOnP p (a ++ c :: b) = splitOnP p a ++ splitOnP p b
  | [], b => by simp [splitOnP, hc]
  | x :: a, b => by
    cases h : p x with
    | true =>
      simp only [List.cons_append, splitOnP, h, if_true, List.append_eq]
      rw [splitOnP_append_sep p c hc a b]
    | false =>
      simp only [List.cons_append, splitOnP, h, List.append_eq]
      rw [splitOnP_append_sep p c hc a b,
        consHead_append _ _ _ (splitOnP_ne_nil p a)]
      simp

theorem splitOnP_no_sep (p : Char → Bool) :
    ∀ (l : List Char), (∀ c ∈ l, p c = false) → splitOnP p l = [l]
  | [], _ => rfl
  | x :: l, h => by
    have hx : p x = false := h x (by simp)
    simp only [splitOnP, hx]
    rw [splitOnP_no_sep p l (fun c hc => h c (by simp [hc]))]
    simp [consHead]

theorem splitOnP_joinComma :
    ∀ (ls : List (List Char)), ls ≠ [] →
      (∀ l ∈ ls, ∀ c ∈ l, (c == ',') = false) →
      splitOnP (fun c => c == ',') (joinCommaL ls) = ls
  | [], h, _ => absurd rfl h
  | [t], _, h => by
    simp only [joinCommaL]
    exact splitOnP_no_sep _ t (h t (by simp))
  | t :: t' :: ts, _, h => by
    have hj : joinCommaL (t :: t' :: ts) =
        t ++ ',' :: joinCommaL (t' :: ts) := rfl
    rw [hj, splitOnP_append_sep _ ',' (by simp),
      splitOnP_no_sep _ t (h t (by simp)),
      splitOnP_joinComma (t' :: ts) (by simp)
        (fun l hl => h l (by simp only [List.mem_cons] at hl ⊢; tauto))]
    rfl

theorem stringMk_toList (s : String) : String.mk s.toList = s := rfl

theorem parseTags_joinComma (tags : List String)
    (h : ∀ t ∈ tags, t ≠ "" ∧ jsTrim t = t ∧ ',' ∉ t.toList) :
    parseTags (String.mk (joinCommaL (tags.map String.toList))) = tags := by
  cases tags with
  | nil => decide
  | cons t ts =>
    have hc : ∀ l ∈ (t :: ts).map String.toList, ∀ c ∈ l,
        (c == ',') = false := by
      intro l hl c hcl
      rcases List.mem_map.mp hl with ⟨u, hu, rfl⟩
      have := (h u hu).2.2
      simp only [beq_eq_false_iff_ne, ne_eq]
      rintro rfl
      exact this hcl
    have hsplit := splitOnP_joinComma ((t :: ts).map String.toList)
      (by simp) hc
    unfold parseTags
    rw [show (String.mk (joinCommaL ((t :: ts).map String.toList))).toList =
      joinCommaL ((t :: ts).map String.toList) from rfl]
    rw [hsplit, List.map_map]
    have hm : ∀ u ∈ t :: ts,
        ((fun l => jsTrim (String.mk l)) ∘ String.toList) u = id u := by
      intro u hu
      simp only [Function.comp_apply, stringMk_toList, id_eq]
      exact (h u hu).2.1
    rw [List.map_congr_left hm, List.map_id, List.filter_eq_self]
    intro u hu
    simp [(h u hu).1]

/-- C7: adding an entry whose tags are non-empty, comma-free and
trim-invariant returns those tags unchanged, and the merged view after
the add ends with a new entry carrying exactly those tags, in order,
with `isCustom = true`. -/
theorem add_tags_roundtrip (kb : List BaseScript)
    (db : List CustomScriptRow) (uuid : String) (d : AddInput)
    (h : ∀ t ∈ d.tags, t ≠ "" ∧ jsTrim t = t ∧ ',' ∉ t.toList) :
    (addScript db uuid d).2.tags = d.tags ∧
    getAllScripts kb (addScript db uuid d).1 =
      getAllScripts kb db ++
        [⟨"custom-" ++ uuid, d.title, d.category, d.content, d.tags,
          true⟩] := by
  refine ⟨rfl, ?_⟩
  have hr : rowToScript ⟨"custom-" ++ uuid, d.title, d.category, d.content,
      String.mk (joinCommaL (d.tags.map String.toList))⟩ =
      ⟨"custom-" ++ uuid, d.title, d.category, d.content, d.tags, true⟩ := by
    simp [rowToScript, parseTags_joinComma d.tags h]
  simp [addScript, getAllScripts, hr]

/-- Sample add input used by the C7 witness. -/
def sampleAdd : AddInput := ⟨"T", "C", "X", ["a", "b"]⟩

/-- Witness for C7 at concrete inputs: tags `["a", "b"]` survive the
join/split cycle and the new entry is custom. -/
theorem add_tags_roundtrip_witness :
    (∀ t ∈ sampleAdd.tags, t ≠ "" ∧ jsTrim t = t ∧ ',' ∉ t.toList) ∧
    ((addScript [sampleRow] "u1" sampleAdd).2.tags = sampleAdd.tags ∧
     getAllScripts [sampleBase] (addScript [sampleRow] "u1" sampleAdd).1 =
       getAllScripts [sampleBase] [sampleRow] ++
         [⟨"custom-" ++ "u1", sampleAdd.title, sampleAdd.category,
           sampleAdd.content, sampleAdd.tags, true⟩]) :=
  ⟨by decide, add_tags_roundtrip [sampleBase] [sampleRow] "u1" sampleAdd
    (by decide)⟩

theorem startsWithL_append (u : List Char) :
    ∀ (t s : List Char), startsWithL t s = true →
      startsWithL t (s ++ u) = true
  | [], _, _ => rfl
  | a :: t, [], h => by simp [startsWithL] at h
  | a :: t, b :: s, h => by
    simp only [startsWithL, Bool.and_eq_true] at h ⊢
    exact ⟨h.1, startsWithL_append u t s h.2⟩

theorem includesL_nil : ∀ (u : List Char), includesL [] u = true
  | [] => rfl
  | c :: u => by simp [includesL, startsWithL]

theorem includesL_append_right (t : List Char) :
    ∀ (s u : List Char), includesL t s = true →
      includesL t (s ++ u) = true
  | [], u, h => by
    simp only [includesL, List.isEmpty_iff] at h
    subst h
    exact includesL_nil u
  | c :: s, u, h => by
    simp only [includesL, Bool.or_eq_true] at h
    rcases h with h | h
    · have := startsWithL_append u t (c :: s) h
      simp only [List.cons_append] at this ⊢
      simp [includesL, this]
    · simp only [List.cons_append, includesL, Bool.or_eq_true]
      exact Or.inr (includesL_append_right t s u h)

theorem chatScore_eq (m : String) (e : MPTScript) :
    chatScore m e = scoreTerms (tokensOf 3 m) e +
      5 * keyTerms.countP
        (fun k => includesL k.toList (lowerStr m) && keyFieldMatch e k) := by
  rw [chatScore, foldl_bonus_eq]

theorem strToList_append (a b : String) :
    (a ++ b).toList = a.toList ++ b.toList := by
  cases a
  cases b
  rfl

theorem lowerStr_append (a b : String) :
    lowerStr (a ++ b) = lowerStr a ++ lowerStr b := by
  simp [lowerStr, strToList_append]

theorem lowerStr_sep (q t : String) :
    lowerStr (q ++ " " ++ t) = lowerStr q ++ ' ' :: lowerStr t := by
  rw [lowerStr_append, lowerStr_append,
    show lowerStr " " = [' '] from by decide]
  simp

theorem tokensOf_sep_append (n : Nat) (q t : String) :
    tokensOf n (q ++ " " ++ t) = tokensOf n q ++ tokensOf n t := by
  unfold tokensOf
  rw [lowerStr_sep, splitOnP_append_sep Char.isWhitespace ' ' (by decide),
    List.filter_append]

/-- C8: appending one more whitespace-separated token to a query never
decreases any entry's score, under the general-search profile and under
the chat-context profile. -/
theorem score_monotone_append_token (q t : String) (e : MPTScript) :
    scoreTerms (tokensOf 2 q) e ≤
      scoreTerms (tokensOf 2 (q ++ " " ++ t)) e ∧
    chatScore q e ≤ chatScore (q ++ " " ++ t) e := by
  constructor
  · rw [tokensOf_sep_append, scoreTerms_append]
    exact Nat.le_add_right _ _
  · rw [chatScore_eq, chatScore_eq]
    have hbase : scoreTerms (tokensOf 3 q) e ≤
        scoreTerms (tokensOf 3 (q ++ " " ++ t)) e := by
      rw [tokensOf_sep_append, scoreTerms_append]
      exact Nat.le_add_right _ _
    have hcount : keyTerms.countP
        (fun k => includesL k.toList (lowerStr q) && keyFieldMatch e k) ≤
        keyTerms.countP (fun k =>
          includesL k.toList (lowerStr (q ++ " " ++ t)) &&
            keyFieldMatch e k) := by
      apply List.countP_mono_left
      intro k hk hpk
      simp only [Bool.and_eq_true] at hpk ⊢
      refine ⟨?_, hpk.2⟩
      rw [lowerStr_sep]
      exact includesL_append_right _ _ _ hpk.1
    omega

theorem insertDesc_length {α : Type} (x : α × Nat) :
    ∀ l : List (α × Nat), (insertDesc x l).length = l.length + 1
  | [] => rfl
  | y :: ys => by
    simp only [insertDesc]
    by_cases h : y.2 ≤ x.2
    · simp [h]
    · simp [h, insertDesc_length x ys]

theorem sortByScoreDesc_length {α : Type} :
    ∀ l : List (α × Nat), (sortByScoreDesc l).length = l.length
  | [] => rfl
  | x :: xs => by
    simp [sortByScoreDesc, insertDesc_length, sortByScoreDesc_length xs]

theorem mem_insertDesc {α : Type} (x y : α × Nat) :
    ∀ l : List (α × Nat), (y ∈ insertDesc x l ↔ y = x ∨ y ∈ l)
  | [] => by simp [insertDesc]
  | z :: zs => by
    simp only [insertDesc]
    by_cases h : z.2 ≤ x.2
    · simp [h, List.mem_cons]
      try tauto
    · simp [h, List.mem_cons, mem_insertDesc x y zs]
      try tauto

theorem mem_sortByScoreDesc {α : Type} (y : α × Nat) :
    ∀ l : List (α × Nat), (y ∈ sortByScoreDesc l ↔ y ∈ l)
  | [] => Iff.rfl
  | x :: xs => by
    simp [sortByScoreDesc, mem_insertDesc, mem_sortByScoreDesc y xs]

theorem pairwise_insertDesc {α : Type} (x : α × Nat) :
    ∀ l : List (α × Nat), l.Pairwise (fun a b => b.2 ≤ a.2) →
      (insertDesc x l).Pairwise (fun a b => b.2 ≤ a.2)
  | [], _ => by simp [insertDesc]
  | y :: ys, hp => by
    rcases List.pairwise_cons.mp hp with ⟨hy, hys⟩
    simp only [insertDesc]
    by_cases h : y.2 ≤ x.2
    · simp only [h, if_true]
      refine List.Pairwise.cons ?_ hp
      intro z hz
      rcases List.mem_cons.mp hz with rfl | hz'
      · exact h
      · exact le_trans (hy z hz') h
    · simp only [h, if_false]
      refine List.Pairwise.cons ?_ (pairwise_insertDesc x ys hys)
      intro z hz
      rcases (mem_insertDesc x z ys).mp hz with rfl | hz'
      · omega
      · exact hy z hz'

theorem sortByScoreDesc_pairwise {α : Type} :
    ∀ l : List (α × Nat),
      (sortByScoreDesc l).Pairwise (fun a b => b.2 ≤ a.2)
  | [] => List.Pairwise.nil
  | x :: xs => pairwise_insertDesc x _ (sortByScoreDesc_pairwise xs)

theorem filter_insertDesc {α : Type} (x : α × Nat) (v : Nat) :
    ∀ l : List (α × Nat),
      (insertDesc x l).filter (fun p => decide (p.2 = v)) =
        if x.2 = v then x :: l.filter (fun p => decide (p.2 = v))
        else l.filter (fun p => decide (p.2 = v))
  | [] => by
    by_cases h : x.2 = v <;> simp [insertDesc, h]
  | y :: ys => by
    by_cases h : y.2 ≤ x.2
    · simp only [insertDesc, h, if_true]
      by_cases hx : x.2 = v <;> simp [hx, List.filter_cons]
    · simp only [insertDesc, h, if_false]
      rw [List.filter_cons, filter_insertDesc x v ys]
      by_cases hx : x.2 = v
      · have hy : ¬ (y.2 = v) := by omega
        simp [hx, hy, List.filter_cons]
      · by_cases hy : y.2 = v <;> simp [hx, hy, List.filter_cons]

theorem filter_sortByScoreDesc {α : Type} (v : Nat) :
    ∀ l : List (α × Nat),
      (sortByScoreDesc l).filter (fun p => decide (p.2 = v)) =
        l.filter (fun p => decide (p.2 = v))
  | [] => rfl
  | x :: xs => by
    rw [sortByScoreDesc, filter_insertDesc, filter_sortByScoreDesc v xs,
      List.filter_cons]
    by_cases hx : x.2 = v <;> simp [hx]

theorem insertDesc_map {α β : Type} (f : α → β) (x : α × Nat) :
    ∀ l : List (α × Nat),
      insertDesc (f x.1, x.2) (l.map (fun p => (f p.1, p.2))) =
        (insertDesc x l).map (fun p => (f p.1, p.2))
  | [] => rfl
  | y :: ys => by
    simp only [List.map_cons, insertDesc]
    by_cases h : y.2 ≤ x.2
    · simp [h]
    · simp [h, insertDesc_map f x ys]

theorem sortByScoreDesc_map {α β : Type} (f : α → β) :
    ∀ l : List (α × Nat),
      sortByScoreDesc (l.map (fun p => (f p.1, p.2))) =
        (sortByScoreDesc l).map (fun p => (f p.1, p.2))
  | [] => rfl
  | x :: xs => by
    simp only [List.map_cons, sortByScoreDesc]
    rw [sortByScoreDesc_map f xs, insertDesc_map]

/-- The ranking/selection tail shared by `searchScripts`,
`findRelevantScriptsForChat` and the inline `findRelevantScripts`:
score, drop non-positive scores, stable descending sort, truncate. -/
def selectTop {α : Type} (sc : α → Nat) (l : List α) (limit : Nat) :
    List α :=
  ((sortByScoreDesc ((l.map (fun s => (s, sc s))).filter
    (fun p => decide (0 < p.2)))).take limit).map Prod.fst

theorem searchScripts_eq_selectTop (kb : List BaseScript)
    (db : List CustomScriptRow) (q : String) (limit : Nat)
    (h : jsTrim q ≠ "") :
    searchScripts kb db q limit =
      selectTop (scoreTerms (tokensOf 2 q)) (getAllScripts kb db) limit := by
  simp [searchScripts, selectTop, h]

theorem chat_eq_selectTop (kb : List BaseScript) (db : List CustomScriptRow)
    (m : String) (limit : Nat) :
    findRelevantScriptsForChat kb db m limit =
      selectTop (chatScore m) (getAllScripts kb db) limit := rfl

theorem inline_eq_selectTop (kb : List BaseScript) (m : String)
    (limit : Nat) :
    findRelevantScripts kb m limit =
      selectTop (chatScoreBase m) kb limit := rfl

theorem selectTop_filter_map {α : Type} (sc : α → Nat) (l : List α) :
    (l.map (fun s => (s, sc s))).filter (fun p => decide (0 < p.2)) =
      (l.filter (fun s => decide (0 < sc s))).map (fun s => (s, sc s)) := by
  rw [List.filter_map]
  rfl

theorem selectTop_mem_pairs {α : Type} (sc : α → Nat) (l : List α)
    (limit : Nat) (p : α × Nat)
    (hp : p ∈ (sortByScoreDesc ((l.map (fun s => (s, sc s))).filter
      (fun p => decide (0 < p.2)))).take limit) :
    p.2 = sc p.1 ∧ 0 < sc p.1 := by
  have h1 : p ∈ sortByScoreDesc ((l.map (fun s => (s, sc s))).filter
      (fun p => decide (0 < p.2))) :=
    (List.take_prefix limit _).subset hp
  have h2 := (mem_sortByScoreDesc p _).mp h1
  rw [selectTop_filter_map] at h2
  rcases List.mem_map.mp h2 with ⟨u, hu, rfl⟩
  have h3 := (List.mem_filter.mp hu).2
  simp only [decide_eq_true_eq] at h3
  exact ⟨rfl, h3⟩

theorem selectTop_length {α : Type} (sc : α → Nat) (l : List α)
    (limit : Nat) :
    (selectTop sc l limit).length =
      min limit ((l.filter (fun s => decide (0 < sc s))).length) := by
  rw [selectTop, selectTop_filter_map]
  simp [List.length_take, sortByScoreDesc_length]

theorem selectTop_pos {α : Type} (sc : α → Nat) (l : List α) (limit : Nat) :
    ∀ s ∈ selectTop sc l limit, 0 < sc s := by
  intro s hs
  rcases List.mem_map.mp hs with ⟨p, hp, rfl⟩
  exact (selectTop_mem_pairs sc l limit p hp).2

theorem selectTop_sorted {α : Type} (sc : α → Nat) (l : List α)
    (limit : Nat) :
    (selectTop sc l limit).Pairwise (fun a b => sc b ≤ sc a) := by
  rw [selectTop, List.pairwise_map]
  have hP := sortByScoreDesc_pairwise ((l.map (fun s => (s, sc s))).filter
    (fun p => decide (0 < p.2)))
  have htake := hP.sublist (List.take_sublist limit _)
  refine htake.imp_of_mem ?_
  intro a b ha hb hab
  rw [← (selectTop_mem_pairs sc l limit a ha).1,
    ← (selectTop_mem_pairs sc l limit b hb).1]
  exact hab

theorem selectTop_stable {α : Type} (sc : α → Nat) (l : List α)
    (limit : Nat) (v : Nat) :
    (selectTop sc l limit).filter (fun s => decide (sc s = v)) <+:
      l.filter (fun s => decide (sc s = v)) := by
  by_cases hv : v = 0
  · subst hv
    have hnil : (selectTop sc l limit).filter
        (fun s => decide (sc s = 0)) = [] := by
      rw [List.filter_eq_nil_iff]
      intro s hs
      have := selectTop_pos sc l limit s hs
      simp
      omega
    rw [hnil]
    exact List.nil_prefix
  · rw [selectTop, List.filter_map]
    have hcongr : ((sortByScoreDesc ((l.map (fun s => (s, sc s))).filter
        (fun p => decide (0 < p.2)))).take limit).filter
          ((fun s => decide (sc s = v)) ∘ Prod.fst) =
        ((sortByScoreDesc ((l.map (fun s => (s, sc s))).filter
        (fun p => decide (0 < p.2)))).take limit).filter
          (fun p => decide (p.2 = v)) := by
      apply List.filter_congr
      intro p hp
      have := (selectTop_mem_pairs sc l limit p hp).1
      simp [Function.comp, this]
    rw [hcongr]
    have hpre : ((sortByScoreDesc ((l.map (fun s => (s, sc s))).filter
        (fun p => decide (0 < p.2)))).take limit).filter
          (fun p => decide (p.2 = v)) <+:
        (sortByScoreDesc ((l.map (fun s => (s, sc s))).filter
        (fun p => decide (0 < p.2)))).filter (fun p => decide (p.2 = v)) :=
      (List.take_prefix limit _).filter _
    have hsorteq := filter_sortByScoreDesc v ((l.map (fun s => (s, sc s))).filter
      (fun p => decide (0 < p.2)))
    rw [hsorteq, selectTop_filter_map] at hpre
    have h2 : ((l.filter (fun s => decide (0 < sc s))).map
        (fun s => (s, sc s))).filter (fun p => decide (p.2 = v)) =
        ((l.filter (fun s => decide (0 < sc s))).filter
          (fun s => decide (sc s = v))).map (fun s => (s, sc s)) := by
      rw [List.filter_map]
      rfl
    rw [h2] at hpre
    have h3 := hpre.map Prod.fst
    rw [List.map_map] at h3
    have h4 : ∀ X : List α, X.map (Prod.fst ∘ fun s => (s, sc s)) = X := by
      intro X
      rw [show (Prod.fst ∘ fun s : α => (s, sc s)) = id from rfl,
        List.map_id]
    rw [h4] at h3
    have h5 : (l.filter (fun s => decide (0 < sc s))).filter
        (fun s => decide (sc s = v)) =
        l.filter (fun s => decide (sc s = v)) := by
      rw [List.filter_filter]
      apply List.filter_congr
      intro s hs
      by_cases hc : sc s = v
      · have h0 : 0 < v := by omega
        simp [hc, h0]
      · simp [hc]
    rw [h5] at h3
    rw [selectTop_filter_map]
    exact h3

theorem selectTop_eq_nil {α : Type} (sc : α → Nat) (l : List α)
    (limit : Nat) (h : ∀ s ∈ l, sc s = 0) : selectTop sc l limit = [] := by
  have hf : (l.map (fun s => (s, sc s))).filter
      (fun p => decide (0 < p.2)) = [] := by
    rw [List.filter_eq_nil_iff]
    intro p hp
    rcases List.mem_map.mp hp with ⟨u, hu, rfl⟩
    simp [h u hu]
  rw [selectTop, hf]
  simp [sortByScoreDesc]

theorem selectTop_take {α : Type} (sc : α → Nat) (l : List α)
    (limit N : Nat) (h : l.length ≤ N) :
    selectTop sc l limit = (selectTop sc l N).take limit := by
  unfold selectTop
  have hlen : (sortByScoreDesc ((l.map (fun s => (s, sc s))).filter
      (fun p => decide (0 < p.2)))).length ≤ N := by
    rw [sortByScoreDesc_length]
    calc ((l.map (fun s => (s, sc s))).filter
        (fun p => decide (0 < p.2))).length
        ≤ (l.map (fun s => (s, sc s))).length := List.length_filter_le _ _
      _ = l.length := List.length_map _ _
      _ ≤ N := h
  rw [List.take_of_length_le hlen, List.map_take]

theorem selectTop_topk {α : Type} (sc : α → Nat) (l : List α)
    (limit : Nat) (s : α) (hs : s ∈ l) (hpos : 0 < sc s)
    (hnot : s ∉ selectTop sc l limit) :
    ∀ r ∈ selectTop sc l limit, sc s ≤ sc r := by
  intro r hr
  have hsL : (s, sc s) ∈ sortByScoreDesc ((l.map (fun u => (u, sc u))).filter
      (fun p => decide (0 < p.2))) := by
    rw [mem_sortByScoreDesc, selectTop_filter_map]
    exact List.mem_map.mpr ⟨s, List.mem_filter.mpr ⟨hs, by simp [hpos]⟩, rfl⟩
  have hpair2 : ((sortByScoreDesc ((l.map (fun u => (u, sc u))).filter
      (fun p => decide (0 < p.2)))).take limit ++
      (sortByScoreDesc ((l.map (fun u => (u, sc u))).filter
      (fun p => decide (0 < p.2)))).drop limit).Pairwise
        (fun a b => b.2 ≤ a.2) := by
    rw [List.take_append_drop]
    exact sortByScoreDesc_pairwise _
  have hsL2 : (s, sc s) ∈ (sortByScoreDesc ((l.map (fun u => (u, sc u))).filter
      (fun p => decide (0 < p.2)))).take limit ++
      (sortByScoreDesc ((l.map (fun u => (u, sc u))).filter
      (fun p => decide (0 < p.2)))).drop limit := by
    rw [List.take_append_drop]
    exact hsL
  have hs_drop : (s, sc s) ∈ (sortByScoreDesc ((l.map (fun u => (u, sc u))).filter
      (fun p => decide (0 < p.2)))).drop limit := by
    rcases List.mem_append.mp hsL2 with h1 | h2
    · exact absurd (show s ∈ selectTop sc l limit from
        List.mem_map.mpr ⟨(s, sc s), h1, rfl⟩) hnot
    · exact h2
  rcases List.mem_map.mp hr with ⟨p, hp, rfl⟩
  have hp2 := (selectTop_mem_pairs sc l limit p hp).1
  have hle := (List.pairwise_append.mp hpair2).2.2 p hp (s, sc s) hs_drop
  rw [hp2] at hle
  exact hle

/-- C3: for every non-blank query, `searchScripts` keeps exactly the
positively scored entries of the merged view, sorts them by score
descending, breaks ties by merged-view order (built-ins before customs,
source order within each group), and truncates to `limit`; the default
limits are 10 for search and 3 for chat retrieval. -/
theorem search_ranking (kb : List BaseScript) (db : List CustomScriptRow)
    (q : String) (limit : Nat) (h : jsTrim q ≠ "") :
    (searchScripts kb db q limit).length =
      min limit (((getAllScripts kb db).filter
        (fun s => decide (0 < scoreTerms (tokensOf 2 q) s))).length) ∧
    (∀ s ∈ searchScripts kb db q limit,
      0 < scoreTerms (tokensOf 2 q) s) ∧
    (searchScripts kb db q limit).Pairwise
      (fun a b =>
        scoreTerms (tokensOf 2 q) b ≤ scoreTerms (tokensOf 2 q) a) ∧
    (∀ v : Nat, (searchScripts kb db q limit).filter
        (fun s => decide (scoreTerms (tokensOf 2 q) s = v)) <+:
      (getAllScripts kb db).filter
        (fun s => decide (scoreTerms (tokensOf 2 q) s = v))) ∧
    searchScripts kb db q limit =
      (searchScripts kb db q ((getAllScripts kb db).length)).take limit ∧
    (∀ s ∈ getAllScripts kb db, 0 < scoreTerms (tokensOf 2 q) s →
      s ∉ searchScripts kb db q limit →
      ∀ r ∈ searchScripts kb db q limit,
        scoreTerms (tokensOf 2 q) s ≤ scoreTerms (tokensOf 2 q) r) ∧
    searchScripts kb db q = searchScripts kb db q 10 ∧
    findRelevantScriptsForChat kb db q =
      findRelevantScriptsForChat kb db q 3 := by
  rw [searchScripts_eq_selectTop kb db q limit h,
    searchScripts_eq_selectTop kb db q ((getAllScripts kb db).length) h]
  exact ⟨selectTop_length _ _ _, selectTop_pos _ _ _, selectTop_sorted _ _ _,
    fun v => selectTop_stable _ _ _ v,
    selectTop_take _ _ _ _ (le_refl _),
    fun s hs hpos hnot r hr => selectTop_topk _ _ _ s hs hpos hnot r hr,
    rfl, rfl⟩

/-- Witness for C3: the ranking contract evaluated on a concrete corpus,
query `"тело"` and limit 1. -/
theorem search_ranking_witness :
    jsTrim "тело" ≠ "" ∧
    ((searchScripts [sampleBase, sampleBase2] [sampleRow] "тело" 1).length =
      min 1 (((getAllScripts [sampleBase, sampleBase2] [sampleRow]).filter
        (fun s => decide (0 < scoreTerms (tokensOf 2 "тело") s))).length) ∧
    (∀ s ∈ searchScripts [sampleBase, sampleBase2] [sampleRow] "тело" 1,
      0 < scoreTerms (tokensOf 2 "тело") s) ∧
    (searchScripts [sampleBase, sampleBase2] [sampleRow] "тело" 1).Pairwise
      (fun a b =>
        scoreTerms (tokensOf 2 "тело") b ≤ scoreTerms (tokensOf 2 "тело") a) ∧
    (∀ v : Nat,
      (searchScripts [sampleBase, sampleBase2] [sampleRow] "тело" 1).filter
        (fun s => decide (scoreTerms (tokensOf 2 "тело") s = v)) <+:
      (getAllScripts [sampleBase, sampleBase2] [sampleRow]).filter
        (fun s => decide (scoreTerms (tokensOf 2 "тело") s = v))) ∧
    searchScripts [sampleBase, sampleBase2] [sampleRow] "тело" 1 =
      (searchScripts [sampleBase, sampleBase2] [sampleRow] "тело"
        ((getAllScripts [sampleBase, sampleBase2] [sampleRow]).length)).take
          1 ∧
    (∀ s ∈ getAllScripts [sampleBase, sampleBase2] [sampleRow],
      0 < scoreTerms (tokensOf 2 "тело") s →
      s ∉ searchScripts [sampleBase, sampleBase2] [sampleRow] "тело" 1 →
      ∀ r ∈ searchScripts [sampleBase, sampleBase2] [sampleRow] "тело" 1,
        scoreTerms (tokensOf 2 "тело") s ≤
          scoreTerms (tokensOf 2 "тело") r) ∧
    searchScripts [sampleBase, sampleBase2] [sampleRow] "тело" =
      searchScripts [sampleBase, sampleBase2] [sampleRow] "тело" 10 ∧
    findRelevantScriptsForChat [sampleBase, sampleBase2] [sampleRow] "тело" =
      findRelevantScriptsForChat [sampleBase, sampleBase2] [sampleRow]
        "тело" 3) :=
  ⟨by decide,
   search_ranking [sampleBase, sampleBase2] [sampleRow] "тело" 1 (by decide)⟩

/-- Counterexample for C6 as frozen: the whitespace-only query has no
surviving token, so its tokens match no entry in any field, yet
`searchScripts` returns the full merged view instead of the empty list. -/
theorem no_match_counterexample :
    tokensOf 2 " " = [] ∧
    searchScripts [sampleBase] [] " " 10 = [withFlag sampleBase] ∧
    searchScripts [sampleBase] [] " " 10 ≠ [] := by
  refine ⟨by decide, by decide, by decide⟩

/-- C6 (amended): for every query whose trim is non-blank and whose
filtered tokens occur in no field of any merged entry, every score is 0
and `searchScripts` returns the empty list. -/
theorem no_match_returns_empty (kb : List BaseScript)
    (db : List CustomScriptRow) (q : String) (limit : Nat)
    (h : jsTrim q ≠ "")
    (hnm : ∀ s ∈ getAllScripts kb db, ∀ tok ∈ tokensOf 2 q,
      includesL tok (lowerStr s.title) = false ∧
      includesL tok (lowerStr s.category) = false ∧
      s.tags.any (fun tg => includesL tok (lowerStr tg)) = false ∧
      includesL tok (lowerStr s.content) = false) :
    searchScripts kb db q limit = [] := by
  rw [searchScripts_eq_selectTop kb db q limit h]
  apply selectTop_eq_nil
  intro s hs
  rw [scoreTerms_eq_sum]
  apply List.sum_eq_zero
  intro x hx
  rcases List.mem_map.mp hx with ⟨tok, htok, rfl⟩
  have hh := hnm s hs tok htok
  simp [termScore, hh.1, hh.2.1, hh.2.2.1, hh.2.2.2]

/-- Witness for C6 (amended): the ASCII query `"zzz"` survives the trim
check, hits no field of the Cyrillic corpus, and search returns `[]`. -/
theorem no_match_witness :
    (jsTrim "zzz" ≠ "" ∧
     (∀ s ∈ getAllScripts [sampleBase] [], ∀ tok ∈ tokensOf 2 "zzz",
       includesL tok (lowerStr s.title) = false ∧
       includesL tok (lowerStr s.category) = false ∧
       s.tags.any (fun tg => includesL tok (lowerStr tg)) = false ∧
       includesL tok (lowerStr s.content) = false)) ∧
    searchScripts [sampleBase] [] "zzz" 10 = [] :=
  ⟨⟨by decide, by decide⟩,
   no_match_returns_empty [sampleBase] [] "zzz" 10 (by decide) (by decide)⟩

theorem selectTop_map {α β : Type} (f : α → β) (sc : β → Nat) (l : List α)
    (limit : Nat) :
    selectTop sc (l.map f) limit =
      (selectTop (fun s => sc (f s)) l limit).map f := by
  unfold selectTop
  rw [List.map_map]
  have h1 : l.map ((fun s => (s, sc s)) ∘ f) =
      (l.map (fun s => (s, sc (f s)))).map (fun p => (f p.1, p.2)) := by
    rw [List.map_map]
    rfl
  rw [h1]
  have h2 : ((l.map (fun s => (s, sc (f s)))).map
      (fun p => (f p.1, p.2))).filter (fun p => decide (0 < p.2)) =
      ((l.map (fun s => (s, sc (f s)))).filter
        (fun p => decide (0 < p.2))).map (fun p => (f p.1, p.2)) := by
    rw [List.filter_map]
    rfl
  rw [h2, sortByScoreDesc_map, ← List.map_take, List.map_map, List.map_map]
  rfl

/-- C9: with no custom rows stored, the storage-backed chat retrieval
returns exactly the inline scorer's ranking of the built-in corpus
(entry for entry, with the provenance tag the merge layer attaches), and
the two scorers compute identical scores on built-in entries. -/
theorem chat_scorers_agree (kb : List BaseScript) (m : String)
    (limit : Nat) :
    findRelevantScriptsForChat kb [] m limit =
      (findRelevantScripts kb m limit).map withFlag ∧
    (∀ s : BaseScript, chatScore m (withFlag s) = chatScoreBase m s) := by
  constructor
  · rw [chat_eq_selectTop, inline_eq_selectTop]
    have hall : getAllScripts kb [] = kb.map withFlag := by
      simp [getAllScripts]
    rw [hall, selectTop_map]
    have hfun : (fun s => chatScore m (withFlag s)) = chatScoreBase m :=
      funext fun s => rfl
    rw [hfun]
  · intro s
    rfl

/-- C10: the chat path has no blank-input fallback: whenever the
message's length-filtered tokens hit no field of any merged entry and no
key-term occurs both in the message and in some entry, every score is 0,
the result is the empty list, and in particular it is never the
(non-empty) merged view. -/
theorem chat_no_blank_fallback (kb : List BaseScript)
    (db : List CustomScriptRow) (m : String) (limit : Nat)
    (htok : ∀ s ∈ getAllScripts kb db, ∀ tok ∈ tokensOf 3 m,
      includesL tok (lowerStr s.title) = false ∧
      includesL tok (lowerStr s.category) = false ∧
      s.tags.any (fun tg => includesL tok (lowerStr tg)) = false ∧
      includesL tok (lowerStr s.content) = false)
    (hkey : ∀ k ∈ keyTerms, includesL k.toList (lowerStr m) = true →
      ∀ s ∈ getAllScripts kb db, keyFieldMatch s k = false) :
    findRelevantScriptsForChat kb db m limit = [] ∧
    (getAllScripts kb db ≠ [] →
      findRelevantScriptsForChat kb db m limit ≠ getAllScripts kb db) := by
  have hmain : findRelevantScriptsForChat kb db m limit = [] := by
    rw [chat_eq_selectTop]
    apply selectTop_eq_nil
    intro s hs
    rw [chatScore_eq]
    have hbase : scoreTerms (tokensOf 3 m) s = 0 := by
      rw [scoreTerms_eq_sum]
      apply List.sum_eq_zero
      intro x hx
      rcases List.mem_map.mp hx with ⟨tok, htok', rfl⟩
      have hh := htok s hs tok htok'
      simp [termScore, hh.1, hh.2.1, hh.2.2.1, hh.2.2.2]
    have hcount : keyTerms.countP
        (fun k => includesL k.toList (lowerStr m) && keyFieldMatch s k) =
          0 := by
      rw [List.countP_eq_zero]
      intro k hk
      simp only [Bool.and_eq_true, not_and]
      intro hin
      simp [hkey k hk hin s hs]
    rw [hbase, hcount]
  refine ⟨hmain, fun hne => ?_⟩
  rw [hmain]
  exact fun hcontra => hne hcontra.symm

/-- Witness for C10: the all-whitespace message on a non-empty corpus —
chat retrieval yields `[]`, not the merged view. -/
theorem chat_no_blank_fallback_witness :
    ((∀ s ∈ getAllScripts [sampleBase] [], ∀ tok ∈ tokensOf 3 " ",
       includesL tok (lowerStr s.title) = false ∧
       includesL tok (lowerStr s.category) = false ∧
       s.tags.any (fun tg => includesL tok (lowerStr tg)) = false ∧
       includesL tok (lowerStr s.content) = false) ∧
     (∀ k ∈ keyTerms, includesL k.toList (lowerStr " ") = true →
       ∀ s ∈ getAllScripts [sampleBase] [], keyFieldMatch s k = false)) ∧
    (findRelevantScriptsForChat [sampleBase] [] " " 3 = [] ∧
     (getAllScripts [sampleBase] [] ≠ [] →
       findRelevantScriptsForChat [sampleBase] [] " " 3 ≠
         getAllScripts [sampleBase] [])) :=
  ⟨⟨by decide, by decide⟩,
   chat_no_blank_fallback [sampleBase] [] " " 3 (by decide) (by decide)⟩
